import Mathlib

/-!
Verification of the Van-Der-Linde-MIU component loader
(`src/assests/js/core/component-loader.js`) against its specification.

The script is a client-side HTML-fragment loader: on DOM-ready it walks a
fixed registration list of (fragment path, placeholder id) pairs, fetches
each fragment whose placeholder is present, injects the markup into the
placeholder, and rewrites the fragment's relative links according to the
hosting page's folder depth.  We embed the script shallowly:

* a fragment is a flat list of nodes (anchors carrying an `href`, and
  opaque text), since the only per-node operation the script performs is
  the href rewrite of `fixInternalLinks`;
* the DOM is a list of elements, each an id paired with its current
  content; `getElementById` returns the first match, as in the DOM spec;
* the network is an oracle `String → FetchResult` mapping the full fetch
  path to either a fragment (`ok`), a thrown failure (`fail`, covering
  non-success statuses and network errors), or a promise that never
  settles (`hang`);
* `async`/`await` suspension is modelled by `Option`: a computation that
  awaits a hanging fetch never resumes, which we render as `none` — in
  particular statements a hanging await precedes are never executed.

String predicates of the JavaScript standard library
(`String.prototype.includes`, `String.prototype.startsWith`) are embedded
as structurally recursive functions on the character lists underlying
Lean strings, so that all of them evaluate on concrete inputs.
-/

/-- Prefix test on character lists (the meaning of JavaScript
`String.prototype.startsWith` on the underlying code points). -/
def listIsPrefixOf : List Char → List Char → Bool
  | [], _ => true
  | _ :: _, [] => false
  | a :: as, b :: bs => a == b && listIsPrefixOf as bs

/-- Infix test on character lists (the meaning of JavaScript
`String.prototype.includes`). -/
def listIsInfixOf (sub : List Char) : List Char → Bool
  | [] => listIsPrefixOf sub []
  | c :: rest => listIsPrefixOf sub (c :: rest) || listIsInfixOf sub rest

/-- JavaScript `s.includes(sub)`: substring containment. -/
def jsIncludes (s sub : String) : Bool :=
  listIsInfixOf sub.data s.data

/-- JavaScript `s.startsWith(pre)`: prefix test. -/
def jsStartsWith (s pre : String) : Bool :=
  listIsPrefixOf pre.data s.data

/-- A node of an injected fragment: an anchor with an `href` attribute
(the only nodes `fixInternalLinks` touches, via `querySelectorAll` on
`a[href]`), or any other markup, left opaque. -/
inductive Node
  | anchor (href : String)
  | text (s : String)
deriving DecidableEq, Repr

/-- A fragment's markup: the list of its nodes. -/
abbrev Fragment := List Node

/-- `getBasePath()`: returns the prefix needed to reach the site root
from the current page, decided by testing whether the page pathname
contains the subfolder markers `/pages/` or `/admin/`. -/
def getBasePath (pathname : String) : String :=
  if jsIncludes pathname "/pages/" || jsIncludes pathname "/admin/" then "../" else ""

/-- The body of the `forEach` in `fixInternalLinks`: a single href is
prefixed with the base path when it is truthy (non-empty) and starts with
none of `http`, `#`, `mailto:`; otherwise it is left unchanged. -/
def rewriteHref (basePath href : String) : String :=
  if href ≠ "" ∧ jsStartsWith href "http" = false ∧ jsStartsWith href "#" = false ∧
      jsStartsWith href "mailto:" = false
  then basePath ++ href
  else href

/-- `fixInternalLinks(element)`: computes the base path from the page
pathname; when it is empty the function returns without touching the
fragment, otherwise every anchor's href goes through `rewriteHref`. -/
def fixInternalLinks (pathname : String) (frag : Fragment) : Fragment :=
  let basePath := getBasePath pathname
  if basePath = "" then frag
  else frag.map fun n =>
    match n with
    | Node.anchor href => Node.anchor (rewriteHref basePath href)
    | other => other

/-- C3: `getBasePath` produces exactly two values: the empty string when
the pathname contains neither marker substring, and `../` exactly when it
contains `/pages/` or `/admin/`; no other prefix is ever produced. -/
theorem c3_basePath_two_values (pathname : String) :
    (getBasePath pathname = "" ∨ getBasePath pathname = "../") ∧
    (getBasePath pathname = "../" ↔
      (jsIncludes pathname "/pages/" || jsIncludes pathname "/admin/") = true) := by
  unfold getBasePath
  by_cases h : (jsIncludes pathname "/pages/" || jsIncludes pathname "/admin/") = true
  · simp [h]
  · simp [h]

/-- C2: for a fragment with an anchor `href="pages/shop.html"` at any
position, the link-rewrite pass leaves the href unchanged when the page
is classified as root (empty prefix) and rewrites it to
`../pages/shop.html` when the page is classified as one-level-deep. -/
theorem c2_shop_link_rewrite (pathname : String) (frag : Fragment) (k : Nat)
    (hk : frag[k]? = some (Node.anchor "pages/shop.html")) :
    (getBasePath pathname = "" →
      (fixInternalLinks pathname frag)[k]? = some (Node.anchor "pages/shop.html")) ∧
    (getBasePath pathname = "../" →
      (fixInternalLinks pathname frag)[k]? = some (Node.anchor "../pages/shop.html")) := by
  constructor
  · intro hroot
    simp [fixInternalLinks, hroot, hk]
  · intro hdeep
    simp only [fixInternalLinks, hdeep]
    rw [if_neg (by decide : ¬ ("../" : String) = "")]
    rw [List.getElem?_map, hk]
    simp only [Option.map_some']
    decide

/-- Concrete instantiation of `c2_shop_link_rewrite` at a root page and a
one-level-deep page, on the one-anchor fragment. -/
theorem c2_witness :
    (fixInternalLinks "/HomePage.html" [Node.anchor "pages/shop.html"])[0]? =
      some (Node.anchor "pages/shop.html") ∧
    (fixInternalLinks "/pages/shop.html" [Node.anchor "pages/shop.html"])[0]? =
      some (Node.anchor "../pages/shop.html") :=
  ⟨(c2_shop_link_rewrite "/HomePage.html" [Node.anchor "pages/shop.html"] 0 (by decide)).1
      (by decide),
   (c2_shop_link_rewrite "/pages/shop.html" [Node.anchor "pages/shop.html"] 0 (by decide)).2
      (by decide)⟩

/-- C4: an anchor whose href starts with `http`, `#`, or `mailto:` is
left unchanged by the link-rewrite pass on every page, whatever the
page-depth classification. -/
theorem c4_skip_markers_unchanged (pathname : String) (frag : Fragment) (k : Nat)
    (href : String)
    (hk : frag[k]? = some (Node.anchor href))
    (hskip : jsStartsWith href "http" = true ∨ jsStartsWith href "#" = true ∨
      jsStartsWith href "mailto:" = true) :
    (fixInternalLinks pathname frag)[k]? = some (Node.anchor href) := by
  by_cases hbp : getBasePath pathname = ""
  · simp [fixInternalLinks, hbp, hk]
  · simp only [fixInternalLinks]
    rw [if_neg hbp, List.getElem?_map, hk]
    have hre : rewriteHref (getBasePath pathname) href = href := by
      unfold rewriteHref
      rcases hskip with h | h | h <;> simp [h]
    simp [hre]

/-- Concrete instantiation of `c4_skip_markers_unchanged` on an external
link hosted by a one-level-deep page. -/
theorem c4_witness :
    (fixInternalLinks "/pages/shop.html"
      [Node.anchor "https://example.com"])[0]? =
      some (Node.anchor "https://example.com") :=
  c4_skip_markers_unchanged "/pages/shop.html" [Node.anchor "https://example.com"] 0
    "https://example.com" (by decide) (Or.inl (by decide))

/-- C10: on a one-level-deep page the rewrite pass prepends `../` to
every non-empty href outside the three-marker skip list — including
hrefs already starting with `../` or `/`; the skip list (`http`, `#`,
`mailto:`, plus the falsy empty string) is exhaustive. -/
theorem c10_deep_prefixes_all_relative (pathname : String) (frag : Fragment)
    (k : Nat) (href : String)
    (hdeep : getBasePath pathname = "../")
    (hk : frag[k]? = some (Node.anchor href))
    (hne : href ≠ "")
    (h1 : jsStartsWith href "http" = false)
    (h2 : jsStartsWith href "#" = false)
    (h3 : jsStartsWith href "mailto:" = false) :
    (fixInternalLinks pathname frag)[k]? = some (Node.anchor ("../" ++ href)) := by
  simp only [fixInternalLinks, hdeep]
  rw [if_neg (by decide : ¬ ("../" : String) = "")]
  rw [List.getElem?_map, hk]
  have hre : rewriteHref "../" href = "../" ++ href := by
    unfold rewriteHref
    rw [if_pos]
    exact ⟨hne, h1, h2, h3⟩
  simp [hre]

/-- Concrete instantiation of `c10_deep_prefixes_all_relative` on a
parent-relative href and a root-absolute href. -/
theorem c10_witness :
    (fixInternalLinks "/pages/a.html" [Node.anchor "../index.html"])[0]? =
      some (Node.anchor "../../index.html") ∧
    (fixInternalLinks "/admin/a.html" [Node.anchor "/index.html"])[0]? =
      some (Node.anchor "..//index.html") :=
  ⟨c10_deep_prefixes_all_relative "/pages/a.html" [Node.anchor "../index.html"] 0
      "../index.html" (by decide) (by decide) (by decide) (by decide) (by decide) (by decide),
   c10_deep_prefixes_all_relative "/admin/a.html" [Node.anchor "/index.html"] 0
      "/index.html" (by decide) (by decide) (by decide) (by decide) (by decide) (by decide)⟩

/-- A DOM element: an id and its current child content. -/
structure DomElement where
  id : String
  content : Fragment
deriving DecidableEq, Repr

/-- The DOM: the document's elements in document order. -/
abbrev Dom := List DomElement

/-- `document.getElementById(i)`: the first element with the given id,
or `none` (JavaScript `null`) when there is none. -/
def getElementById : Dom → String → Option DomElement
  | [], _ => none
  | e :: rest, i => if e.id = i then some e else getElementById rest i

/-- Mutation of the element `getElementById` finds: the first element
with the given id has its content mapped through `g`; every other
element is untouched.  Both `element.innerHTML = html` (a constant map)
and `fixInternalLinks(element)` are instances of this. -/
def updateFirst : Dom → String → (Fragment → Fragment) → Dom
  | [], _, _ => []
  | e :: rest, i, g =>
    if e.id = i then { e with content := g e.content } :: rest
    else e :: updateFirst rest i g

/-- `element.innerHTML = html` on the first element with id `i`. -/
def setInnerHTML (dom : Dom) (i : String) (html : Fragment) : Dom :=
  updateFirst dom i (fun _ => html)

/-- `fixInternalLinks(element)` applied to the first element with id
`i`, rewriting the links of its current content. -/
def fixElementLinks (pathname : String) (dom : Dom) (i : String) : Dom :=
  updateFirst dom i (fixInternalLinks pathname)

/-- Outcome of `fetch(fullPath)` (followed by `response.text()`): a
successful response carrying the fragment, a thrown failure (non-success
status, which `loadComponent` turns into a thrown `Error`, or a network
rejection), or a promise that never settles. -/
inductive FetchResult
  | ok (html : Fragment)
  | fail
  | hang
deriving DecidableEq, Repr

/-- Result of a settled `loadComponent` call: the DOM afterwards, the
full paths passed to `fetch` in order, and the number of
`console.error` calls. -/
structure LoadResult where
  dom : Dom
  fetched : List String
  errors : Nat
deriving DecidableEq, Repr

/-- `loadComponent(componentPath, targetId)`: computes the full path,
fetches it, finds the placeholder, injects the markup and rewrites its
links — all inside one `try`/`catch` whose handler only logs.  A thrown
fetch failure and the `TypeError` thrown by `element.innerHTML = ...`
when `getElementById` returned `null` are both caught there, so every
settled call returns `some`; `none` models a fetch that never settles,
which suspends the call forever at its `await`. -/
def loadComponent (f : String → FetchResult) (pathname componentPath targetId : String)
    (dom : Dom) : Option LoadResult :=
  let basePath := getBasePath pathname
  let fullPath := basePath ++ componentPath
  match f fullPath with
  | FetchResult.hang => none
  | FetchResult.fail => some ⟨dom, [fullPath], 1⟩
  | FetchResult.ok html =>
    match getElementById dom targetId with
    | none => some ⟨dom, [fullPath], 1⟩
    | some _ =>
      let dom1 := setInnerHTML dom targetId html
      let dom2 := fixElementLinks pathname dom1 targetId
      some ⟨dom2, [fullPath], 0⟩

theorem getElementById_updateFirst_ne (dom : Dom) (i j : String)
    (g : Fragment → Fragment) (hij : j ≠ i) :
    getElementById (updateFirst dom i g) j = getElementById dom j := by
  induction dom with
  | nil => rfl
  | cons e rest ih =>
    by_cases hei : e.id = i
    · have h1 : ¬ i = j := fun h => hij h.symm
      simp [updateFirst, getElementById, hei, h1]
    · simp only [updateFirst, if_neg hei, getElementById]
      by_cases hej : e.id = j
      · simp [hej, fun h => hij h]
      · simp [hej, ih]

theorem getElementById_updateFirst_self (dom : Dom) (i : String)
    (g : Fragment → Fragment) (e : DomElement) (h : getElementById dom i = some e) :
    getElementById (updateFirst dom i g) i = some { e with content := g e.content } := by
  induction dom with
  | nil => exact absurd h (by simp [getElementById])
  | cons a rest ih =>
    by_cases hai : a.id = i
    · have : a = e := by
        have := h
        simp [getElementById, hai] at this
        exact this
      subst this
      simp [updateFirst, getElementById, hai]
    · have hh : getElementById rest i = some e := by
        have := h
        simpa [getElementById, hai] using this
      simp [updateFirst, getElementById, hai, ih hh]

theorem isSome_getElementById_updateFirst (dom : Dom) (i j : String)
    (g : Fragment → Fragment) :
    (getElementById (updateFirst dom i g) j).isSome = (getElementById dom j).isSome := by
  by_cases hij : j = i
  · subst hij
    cases h : getElementById dom j with
    | none =>
      rw [Option.isSome_none]
      induction dom with
      | nil => rfl
      | cons a rest ih =>
        by_cases haj : a.id = j
        · exact absurd h (by simp [getElementById, haj])
        · have hh : getElementById rest j = none := by
            have := h
            simpa [getElementById, haj] using this
          simp [updateFirst, getElementById, haj] at ih ⊢
          exact ih hh
    | some e =>
      rw [getElementById_updateFirst_self dom j g e h]
      rfl
  · rw [getElementById_updateFirst_ne dom i j g hij]

theorem updateFirst_updateFirst (dom : Dom) (i : String)
    (g g' : Fragment → Fragment) :
    updateFirst (updateFirst dom i g) i g' = updateFirst dom i (fun c => g' (g c)) := by
  induction dom with
  | nil => rfl
  | cons e rest ih =>
    by_cases hei : e.id = i
    · simp [updateFirst, hei]
    · simp [updateFirst, hei, ih]

theorem loadComponent_eq_hang (f : String → FetchResult) (pn p i : String) (dom : Dom)
    (h : f (getBasePath pn ++ p) = FetchResult.hang) :
    loadComponent f pn p i dom = none := by
  simp only [loadComponent]
  rw [h]

theorem loadComponent_eq_fail (f : String → FetchResult) (pn p i : String) (dom : Dom)
    (h : f (getBasePath pn ++ p) = FetchResult.fail) :
    loadComponent f pn p i dom = some ⟨dom, [getBasePath pn ++ p], 1⟩ := by
  simp only [loadComponent]
  rw [h]

theorem loadComponent_eq_ok_absent (f : String → FetchResult) (pn p i : String)
    (dom : Dom) (html : Fragment)
    (h : f (getBasePath pn ++ p) = FetchResult.ok html)
    (hid : getElementById dom i = none) :
    loadComponent f pn p i dom = some ⟨dom, [getBasePath pn ++ p], 1⟩ := by
  simp only [loadComponent]
  rw [h, hid]

theorem loadComponent_eq_ok_present (f : String → FetchResult) (pn p i : String)
    (dom : Dom) (html : Fragment) (e : DomElement)
    (h : f (getBasePath pn ++ p) = FetchResult.ok html)
    (hid : getElementById dom i = some e) :
    loadComponent f pn p i dom =
      some ⟨updateFirst dom i (fun _ => fixInternalLinks pn html),
        [getBasePath pn ++ p], 0⟩ := by
  simp only [loadComponent]
  rw [h, hid]
  simp only [setInnerHTML, fixElementLinks, updateFirst_updateFirst]

theorem loadComponent_fetched (f : String → FetchResult) (pn p i : String) (dom : Dom)
    (r : LoadResult) (h : loadComponent f pn p i dom = some r) :
    r.fetched = [getBasePath pn ++ p] := by
  cases hf : f (getBasePath pn ++ p) with
  | hang => rw [loadComponent_eq_hang f pn p i dom hf] at h; exact absurd h (by simp)
  | fail =>
    rw [loadComponent_eq_fail f pn p i dom hf] at h
    cases h; rfl
  | ok html =>
    cases hid : getElementById dom i with
    | none =>
      rw [loadComponent_eq_ok_absent f pn p i dom html hf hid] at h
      cases h; rfl
    | some e =>
      rw [loadComponent_eq_ok_present f pn p i dom html e hf hid] at h
      cases h; rfl

theorem loadComponent_isSome_id (f : String → FetchResult) (pn p i : String) (dom : Dom)
    (r : LoadResult) (h : loadComponent f pn p i dom = some r) (j : String) :
    (getElementById r.dom j).isSome = (getElementById dom j).isSome := by
  cases hf : f (getBasePath pn ++ p) with
  | hang => rw [loadComponent_eq_hang f pn p i dom hf] at h; exact absurd h (by simp)
  | fail =>
    rw [loadComponent_eq_fail f pn p i dom hf] at h
    cases h; rfl
  | ok html =>
    cases hid : getElementById dom i with
    | none =>
      rw [loadComponent_eq_ok_absent f pn p i dom html hf hid] at h
      cases h; rfl
    | some e =>
      rw [loadComponent_eq_ok_present f pn p i dom html e hf hid] at h
      cases h
      exact isSome_getElementById_updateFirst dom i j _

theorem loadComponent_getElementById_ne (f : String → FetchResult) (pn p i : String)
    (dom : Dom) (r : LoadResult) (h : loadComponent f pn p i dom = some r)
    (j : String) (hj : j ≠ i) :
    getElementById r.dom j = getElementById dom j := by
  cases hf : f (getBasePath pn ++ p) with
  | hang => rw [loadComponent_eq_hang f pn p i dom hf] at h; exact absurd h (by simp)
  | fail =>
    rw [loadComponent_eq_fail f pn p i dom hf] at h
    cases h; rfl
  | ok html =>
    cases hid : getElementById dom i with
    | none =>
      rw [loadComponent_eq_ok_absent f pn p i dom html hf hid] at h
      cases h; rfl
    | some e =>
      rw [loadComponent_eq_ok_present f pn p i dom html e hf hid] at h
      cases h
      exact getElementById_updateFirst_ne dom i j _ hj

/-- State threaded through the `DOMContentLoaded` handler: the DOM, the
full paths passed to `fetch` so far in order, the number of
`console.error` calls, and whether the page-loader cleanup has hidden
the `page-loader` element. -/
structure RunState where
  dom : Dom
  fetched : List String
  errors : Nat
  loaderHidden : Bool
deriving DecidableEq, Repr

/-- The hand-written registration list of the `DOMContentLoaded`
handler, in source order: each entry is the (fragment path, placeholder
id) pair of one `if (document.getElementById(id)) await
loadComponent(path, id)` block. -/
def registrations : List (String × String) :=
  [("components/loader.html", "loader-placeholder"),
   ("components/header.html", "header-placeholder"),
   ("components/footer.html", "footer-placeholder"),
   ("components/currency-switcher.html", "currency-switcher-placeholder"),
   ("components/language-selector.html", "language-selector-placeholder"),
   ("components/darkmode.html", "dark-mode-toggle-placeholder"),
   ("components/live-chat-widget.html", "chat-placeholder"),
   ("components/toast-notification.html", "toast-placeholder"),
   ("components/email-capture-modal.html", "email-modal-placeholder"),
   ("components/cart-offcanvas.html", "cart-offcanvas-placeholder"),
   ("components/product-filter.html", "product-filter-placeholder")]

/-- The sequential `await` chain of the handler over a registration
list: each pair whose placeholder id is present in the current DOM is
loaded (and awaited) before the next pair is examined; a load that never
settles suspends the whole chain (`none`). -/
def runRegistrations (f : String → FetchResult) (pn : String) :
    List (String × String) → RunState → Option RunState
  | [], st => some st
  | (path, tid) :: rest, st =>
    if (getElementById st.dom tid).isSome then
      match loadComponent f pn path tid st.dom with
      | none => none
      | some r =>
        runRegistrations f pn rest
          ⟨r.dom, st.fetched ++ r.fetched, st.errors + r.errors, st.loaderHidden⟩
    else runRegistrations f pn rest st

/-- The `setTimeout` callback at the end of the handler: hides the
`page-loader` element when it exists.  (The hidden display style is
modelled by the `loaderHidden` flag.) -/
def pageLoaderCleanup (st : RunState) : RunState :=
  match getElementById st.dom "page-loader" with
  | some _ => ⟨st.dom, st.fetched, st.errors, true⟩
  | none => st

/-- The whole `DOMContentLoaded` handler: run the registration blocks
sequentially, then — only once that chain has completed — register the
one-second timer whose callback hides the page loader. -/
def domContentLoaded (f : String → FetchResult) (pn : String) (dom : Dom) :
    Option RunState :=
  match runRegistrations f pn registrations ⟨dom, [], 0, false⟩ with
  | none => none
  | some st => some (pageLoaderCleanup st)

/-- C5: a `loadComponent` call whose fetch fails leaves the DOM (hence
the placeholder's pre-load content) unchanged, logs one error, returns
normally (the exception is caught inside the call), and the driving
sequence continues over the remaining registrations from the same DOM,
unaffected except for the recorded fetch and error. -/
theorem c5_fetch_failure_local (f : String → FetchResult) (pn p i : String) (dom : Dom)
    (rest : List (String × String)) (st : RunState)
    (hfail : f (getBasePath pn ++ p) = FetchResult.fail) :
    loadComponent f pn p i dom = some ⟨dom, [getBasePath pn ++ p], 1⟩ ∧
    ((getElementById st.dom i).isSome = true →
      runRegistrations f pn ((p, i) :: rest) st =
        runRegistrations f pn rest
          ⟨st.dom, st.fetched ++ [getBasePath pn ++ p], st.errors + 1, st.loaderHidden⟩) := by
  refine ⟨loadComponent_eq_fail f pn p i dom hfail, fun hpres => ?_⟩
  simp only [runRegistrations, hpres, if_true]
  rw [loadComponent_eq_fail f pn p i st.dom hfail]

/-- Concrete instantiation of `c5_fetch_failure_local`: a failing fetch
for the header on a root page leaves the DOM as it was, logs one error,
and the sequence proceeds to the (empty) remainder of the list. -/
theorem c5_witness :
    loadComponent (fun _ => FetchResult.fail) "/HomePage.html" "components/header.html"
      "header-placeholder" [⟨"header-placeholder", []⟩] =
      some ⟨[⟨"header-placeholder", []⟩], ["components/header.html"], 1⟩ ∧
    runRegistrations (fun _ => FetchResult.fail) "/HomePage.html"
      [("components/header.html", "header-placeholder")]
      ⟨[⟨"header-placeholder", []⟩], [], 0, false⟩ =
      some ⟨[⟨"header-placeholder", []⟩], ["components/header.html"], 1, false⟩ := by
  have h := c5_fetch_failure_local (fun _ => FetchResult.fail) "/HomePage.html"
    "components/header.html" "header-placeholder" [⟨"header-placeholder", []⟩]
    [] ⟨[⟨"header-placeholder", []⟩], [], 0, false⟩ (by decide)
  refine ⟨by rw [h.1]; decide, ?_⟩
  rw [h.2 (by decide)]
  decide

/-- C7: when `loadComponent` is invoked for a target id matching no DOM
element, the fragment is still fetched; the `TypeError` raised by the
injection is caught by the same local handler as a fetch failure (one
logged error, DOM unchanged) and the call returns normally, so no
unhandled fault reaches the caller. -/
theorem c7_missing_target_caught (f : String → FetchResult) (pn p i : String)
    (dom : Dom) (html : Fragment)
    (hid : getElementById dom i = none)
    (hok : f (getBasePath pn ++ p) = FetchResult.ok html) :
    loadComponent f pn p i dom = some ⟨dom, [getBasePath pn ++ p], 1⟩ :=
  loadComponent_eq_ok_absent f pn p i dom html hok hid

/-- Concrete instantiation of `c7_missing_target_caught`: loading the
footer into a DOM that has no such element still fetches the fragment,
logs one error, and returns. -/
theorem c7_witness :
    loadComponent (fun _ => FetchResult.ok [Node.text "footer"]) "/HomePage.html"
      "components/footer.html" "footer-placeholder" [⟨"header-placeholder", []⟩] =
      some ⟨[⟨"header-placeholder", []⟩], ["components/footer.html"], 1⟩ := by
  rw [c7_missing_target_caught (fun _ => FetchResult.ok [Node.text "footer"])
    "/HomePage.html" "components/footer.html" "footer-placeholder"
    [⟨"header-placeholder", []⟩] [Node.text "footer"] (by decide) (by decide)]
  decide

/-- C9: re-invoking the loader on a placeholder it has already filled
replaces the content rather than appending to it: a second settled
`loadComponent` call on the resulting DOM yields that DOM again, so the
final content equals that of a single invocation and no duplicate nodes
accumulate. -/
theorem c9_reload_idempotent (f : String → FetchResult) (pn p i : String) (dom : Dom)
    (r : LoadResult) (h : loadComponent f pn p i dom = some r) :
    ∃ r', loadComponent f pn p i r.dom = some r' ∧ r'.dom = r.dom := by
  cases hf : f (getBasePath pn ++ p) with
  | hang => rw [loadComponent_eq_hang f pn p i dom hf] at h; exact absurd h (by simp)
  | fail =>
    rw [loadComponent_eq_fail f pn p i dom hf] at h
    cases h
    exact ⟨_, loadComponent_eq_fail f pn p i dom hf, rfl⟩
  | ok html =>
    cases hid : getElementById dom i with
    | none =>
      rw [loadComponent_eq_ok_absent f pn p i dom html hf hid] at h
      cases h
      exact ⟨_, loadComponent_eq_ok_absent f pn p i dom html hf hid, rfl⟩
    | some e =>
      rw [loadComponent_eq_ok_present f pn p i dom html e hf hid] at h
      cases h
      have hid2 : getElementById (updateFirst dom i (fun _ => fixInternalLinks pn html)) i =
          some { e with content := fixInternalLinks pn html } :=
        getElementById_updateFirst_self dom i _ e hid
      refine ⟨_, loadComponent_eq_ok_present f pn p i _ html _ hf hid2, ?_⟩
      simp only [updateFirst_updateFirst]

/-- Concrete instantiation of `c9_reload_idempotent`: reloading the
header into an already-filled placeholder reproduces the same DOM. -/
theorem c9_witness :
    ∃ r', loadComponent (fun _ => FetchResult.ok [Node.anchor "pages/shop.html"])
      "/pages/shop.html" "components/header.html" "header-placeholder"
      [⟨"header-placeholder", [Node.anchor "../pages/shop.html"]⟩] = some r' ∧
      r'.dom = [⟨"header-placeholder", [Node.anchor "../pages/shop.html"]⟩] := by
  have h := c9_reload_idempotent (fun _ => FetchResult.ok [Node.anchor "pages/shop.html"])
    "/pages/shop.html" "components/header.html" "header-placeholder"
    [⟨"header-placeholder", []⟩]
    ⟨[⟨"header-placeholder", [Node.anchor "../pages/shop.html"]⟩],
      ["../components/header.html"], 0⟩ (by decide)
  exact h

theorem getElementById_id (dom : Dom) (i : String) (e : DomElement)
    (h : getElementById dom i = some e) : e.id = i := by
  induction dom with
  | nil => exact absurd h (by simp [getElementById])
  | cons a rest ih =>
    by_cases hai : a.id = i
    · have : a = e := by
        have := h
        simp [getElementById, hai] at this
        exact this
      subst this
      exact hai
    · exact ih (by simpa [getElementById, hai] using h)

theorem string_append_left_cancel {a b c : String} (h : a ++ b = a ++ c) : b = c := by
  have hd := congrArg String.data h
  rw [String.data_append, String.data_append] at hd
  exact String.ext (List.append_cancel_left hd)

theorem count_snoc_ne (l : List String) (x y : String) (hxy : x ≠ y) :
    (l ++ [x]).count y = l.count y := by
  rw [List.count_append]
  have h0 : List.count y [x] = 0 := by
    rw [List.count_eq_zero]
    simp
    exact fun h => hxy h.symm
  rw [h0]
  exact Nat.add_zero _

theorem count_snoc_self (l : List String) (x : String) :
    (l ++ [x]).count x = l.count x + 1 := by
  rw [List.count_append]
  simp

theorem runRegs_isSome (f : String → FetchResult) (pn : String)
    (regs : List (String × String)) :
    ∀ (st st' : RunState), runRegistrations f pn regs st = some st' →
      ∀ j, (getElementById st'.dom j).isSome = (getElementById st.dom j).isSome := by
  induction regs with
  | nil =>
    intro st st' h j
    simp only [runRegistrations] at h
    cases h
    rfl
  | cons head rest ih =>
    obtain ⟨q, tj⟩ := head
    intro st st' h j
    simp only [runRegistrations] at h
    by_cases hpres : (getElementById st.dom tj).isSome = true
    · rw [if_pos hpres] at h
      cases hlc : loadComponent f pn q tj st.dom with
      | none => rw [hlc] at h; exact absurd h (by simp)
      | some r =>
        rw [hlc] at h
        have h' : runRegistrations f pn rest
            ⟨r.dom, st.fetched ++ r.fetched, st.errors + r.errors, st.loaderHidden⟩ =
              some st' := h
        rw [ih _ _ h' j]
        exact loadComponent_isSome_id f pn q tj st.dom r hlc j
    · rw [if_neg hpres] at h
      exact ih _ _ h j

theorem runRegs_count_of_no_path (f : String → FetchResult) (pn p : String)
    (regs : List (String × String)) :
    ∀ (st st' : RunState), (∀ pair ∈ regs, pair.1 ≠ p) →
      runRegistrations f pn regs st = some st' →
      st'.fetched.count (getBasePath pn ++ p) = st.fetched.count (getBasePath pn ++ p) := by
  induction regs with
  | nil =>
    intro st st' _ h
    simp only [runRegistrations] at h
    cases h
    rfl
  | cons head rest ih =>
    obtain ⟨q, tj⟩ := head
    intro st st' hno h
    have hq : q ≠ p := hno (q, tj) (by simp)
    have hrest : ∀ pair ∈ rest, pair.1 ≠ p := fun pair hm => hno pair (by simp [hm])
    simp only [runRegistrations] at h
    by_cases hpres : (getElementById st.dom tj).isSome = true
    · rw [if_pos hpres] at h
      cases hlc : loadComponent f pn q tj st.dom with
      | none => rw [hlc] at h; exact absurd h (by simp)
      | some r =>
        rw [hlc] at h
        have h' : runRegistrations f pn rest
            ⟨r.dom, st.fetched ++ r.fetched, st.errors + r.errors, st.loaderHidden⟩ =
              some st' := h
        rw [ih _ _ hrest h']
        simp only [loadComponent_fetched f pn q tj st.dom r hlc]
        exact count_snoc_ne st.fetched (getBasePath pn ++ q) (getBasePath pn ++ p)
          (fun hc => hq (string_append_left_cancel hc))
    · rw [if_neg hpres] at h
      exact ih _ _ hrest h

theorem runRegs_el_of_no_id (f : String → FetchResult) (pn i : String)
    (regs : List (String × String)) :
    ∀ (st st' : RunState), (∀ pair ∈ regs, pair.2 ≠ i) →
      runRegistrations f pn regs st = some st' →
      getElementById st'.dom i = getElementById st.dom i := by
  induction regs with
  | nil =>
    intro st st' _ h
    simp only [runRegistrations] at h
    cases h
    rfl
  | cons head rest ih =>
    obtain ⟨q, tj⟩ := head
    intro st st' hno h
    have hj : tj ≠ i := hno (q, tj) (by simp)
    have hrest : ∀ pair ∈ rest, pair.2 ≠ i := fun pair hm => hno pair (by simp [hm])
    simp only [runRegistrations] at h
    by_cases hpres : (getElementById st.dom tj).isSome = true
    · rw [if_pos hpres] at h
      cases hlc : loadComponent f pn q tj st.dom with
      | none => rw [hlc] at h; exact absurd h (by simp)
      | some r =>
        rw [hlc] at h
        have h' : runRegistrations f pn rest
            ⟨r.dom, st.fetched ++ r.fetched, st.errors + r.errors, st.loaderHidden⟩ =
              some st' := h
        rw [ih _ _ hrest h']
        exact loadComponent_getElementById_ne f pn q tj st.dom r hlc i
          (fun hc => hj hc.symm)
    · rw [if_neg hpres] at h
      exact ih _ _ hrest h

theorem runRegs_present_pair (f : String → FetchResult) (pn p i : String)
    (html : Fragment) (regs : List (String × String)) :
    ∀ (st st' : RunState), (regs.map Prod.fst).Nodup → (regs.map Prod.snd).Nodup →
      (p, i) ∈ regs → (getElementById st.dom i).isSome = true →
      f (getBasePath pn ++ p) = FetchResult.ok html →
      runRegistrations f pn regs st = some st' →
      st'.fetched.count (getBasePath pn ++ p) =
        st.fetched.count (getBasePath pn ++ p) + 1 ∧
      getElementById st'.dom i = some ⟨i, fixInternalLinks pn html⟩ := by
  induction regs with
  | nil => intro st st' _ _ hmem; exact absurd hmem (by simp)
  | cons head rest ih =>
    obtain ⟨q, tj⟩ := head
    intro st st' hnp hni hmem hpres hok h
    simp only [runRegistrations] at h
    have hnp' : (rest.map Prod.fst).Nodup := (List.nodup_cons.mp hnp).2
    have hni' : (rest.map Prod.snd).Nodup := (List.nodup_cons.mp hni).2
    rcases List.mem_cons.mp hmem with heq | hmem'
    · have h1 : p = q := congrArg Prod.fst heq
      have h2 : i = tj := congrArg Prod.snd heq
      subst h1
      subst h2
      rw [if_pos hpres] at h
      obtain ⟨e, he⟩ := Option.isSome_iff_exists.mp hpres
      rw [loadComponent_eq_ok_present f pn p i st.dom html e hok he] at h
      have h' : runRegistrations f pn rest
          ⟨updateFirst st.dom i (fun _ => fixInternalLinks pn html),
            st.fetched ++ [getBasePath pn ++ p], st.errors + 0, st.loaderHidden⟩ =
            some st' := h
      have hpq : ∀ pair ∈ rest, pair.1 ≠ p := fun pair hm hc =>
        (List.nodup_cons.mp hnp).1 (List.mem_map.mpr ⟨pair, hm, hc⟩)
      have hiq : ∀ pair ∈ rest, pair.2 ≠ i := fun pair hm hc =>
        (List.nodup_cons.mp hni).1 (List.mem_map.mpr ⟨pair, hm, hc⟩)
      constructor
      · rw [runRegs_count_of_no_path f pn p rest _ _ hpq h']
        exact count_snoc_self st.fetched (getBasePath pn ++ p)
      · rw [runRegs_el_of_no_id f pn i rest _ _ hiq h']
        have := getElementById_updateFirst_self st.dom i
          (fun _ => fixInternalLinks pn html) e he
        rw [this]
        have hid : e.id = i := getElementById_id st.dom i e he
        cases e
        simp_all
    · have hq : q ≠ p := fun hc =>
        (List.nodup_cons.mp hnp).1 (List.mem_map.mpr ⟨(p, i), hmem', hc.symm⟩)
      have hj : tj ≠ i := fun hc =>
        (List.nodup_cons.mp hni).1 (List.mem_map.mpr ⟨(p, i), hmem', hc.symm⟩)
      by_cases hpres2 : (getElementById st.dom tj).isSome = true
      · rw [if_pos hpres2] at h
        cases hlc : loadComponent f pn q tj st.dom with
        | none => rw [hlc] at h; exact absurd h (by simp)
        | some r =>
          rw [hlc] at h
          have h' : runRegistrations f pn rest
              ⟨r.dom, st.fetched ++ r.fetched, st.errors + r.errors, st.loaderHidden⟩ =
                some st' := h
          have hpres' : (getElementById r.dom i).isSome = true := by
            rw [loadComponent_isSome_id f pn q tj st.dom r hlc i]
            exact hpres
          obtain ⟨hcount, hel⟩ := ih _ _ hnp' hni' hmem' hpres' hok h'
          refine ⟨?_, hel⟩
          rw [hcount]
          simp only [loadComponent_fetched f pn q tj st.dom r hlc]
          rw [count_snoc_ne st.fetched (getBasePath pn ++ q) (getBasePath pn ++ p)
            (fun hc => hq (string_append_left_cancel hc))]
      · rw [if_neg hpres2] at h
        exact ih _ _ hnp' hni' hmem' hpres hok h

theorem pageLoaderCleanup_dom (st : RunState) : (pageLoaderCleanup st).dom = st.dom := by
  unfold pageLoaderCleanup
  cases getElementById st.dom "page-loader" <;> rfl

theorem pageLoaderCleanup_fetched (st : RunState) :
    (pageLoaderCleanup st).fetched = st.fetched := by
  unfold pageLoaderCleanup
  cases getElementById st.dom "page-loader" <;> rfl

/-- C1: for every registered (path, id) pair whose placeholder is in the
DOM at DOM-ready, a completed load sequence with a successful fetch for
that fragment issues exactly one fetch for it, and afterwards the
placeholder's content is the fetched markup with the link-rewrite pass
applied. -/
theorem c1_present_pair_fetch_once (f : String → FetchResult) (pn : String) (dom : Dom)
    (p i : String) (html : Fragment) (st' : RunState)
    (hmem : (p, i) ∈ registrations)
    (hpres : (getElementById dom i).isSome = true)
    (hok : f (getBasePath pn ++ p) = FetchResult.ok html)
    (hrun : domContentLoaded f pn dom = some st') :
    st'.fetched.count (getBasePath pn ++ p) = 1 ∧
    getElementById st'.dom i = some ⟨i, fixInternalLinks pn html⟩ := by
  unfold domContentLoaded at hrun
  cases hr : runRegistrations f pn registrations ⟨dom, [], 0, false⟩ with
  | none => rw [hr] at hrun; exact absurd hrun (by simp)
  | some st0 =>
    rw [hr] at hrun
    have hst' : st' = pageLoaderCleanup st0 := by
      cases hrun
      rfl
    obtain ⟨hcount, hel⟩ := runRegs_present_pair f pn p i html registrations _ _
      (by decide) (by decide) hmem hpres hok hr
    subst hst'
    rw [pageLoaderCleanup_fetched, pageLoaderCleanup_dom]
    exact ⟨by simpa using hcount, hel⟩

/-- Concrete instantiation of `c1_present_pair_fetch_once`: a root page
with only the header placeholder fetches the header fragment once and
ends with the placeholder holding the rewritten (here: unchanged)
markup. -/
theorem c1_witness :
    (List.count "components/header.html" ["components/header.html"]) = 1 ∧
    getElementById [⟨"header-placeholder", [Node.anchor "pages/shop.html"]⟩]
      "header-placeholder" =
      some ⟨"header-placeholder",
        fixInternalLinks "/HomePage.html" [Node.anchor "pages/shop.html"]⟩ := by
  have h := c1_present_pair_fetch_once
    (fun _ => FetchResult.ok [Node.anchor "pages/shop.html"]) "/HomePage.html"
    [⟨"header-placeholder", []⟩] "components/header.html" "header-placeholder"
    [Node.anchor "pages/shop.html"]
    ⟨[⟨"header-placeholder", [Node.anchor "pages/shop.html"]⟩],
      ["components/header.html"], 0, false⟩
    (by decide) (by decide) (by decide) (by decide)
  exact h

/-- C6: a registered pair whose placeholder id is absent from the DOM at
DOM-ready triggers no fetch of its fragment path during a completed load
sequence. -/
theorem c6_absent_no_fetch (f : String → FetchResult) (pn : String) (dom : Dom)
    (p i : String) (st' : RunState)
    (hmem : (p, i) ∈ registrations)
    (habs : getElementById dom i = none)
    (hrun : domContentLoaded f pn dom = some st') :
    st'.fetched.count (getBasePath pn ++ p) = 0 := by
  unfold domContentLoaded at hrun
  cases hr : runRegistrations f pn registrations ⟨dom, [], 0, false⟩ with
  | none => rw [hr] at hrun; exact absurd hrun (by simp)
  | some st0 =>
    rw [hr] at hrun
    have hst' : st' = pageLoaderCleanup st0 := by
      cases hrun
      rfl
    subst hst'
    rw [pageLoaderCleanup_fetched]
    have key : ∀ (regs : List (String × String)) (st st1 : RunState),
        (regs.map Prod.fst).Nodup → (p, i) ∈ regs →
        getElementById st.dom i = none →
        runRegistrations f pn regs st = some st1 →
        st1.fetched.count (getBasePath pn ++ p) =
          st.fetched.count (getBasePath pn ++ p) := by
      intro regs
      induction regs with
      | nil => intro st st1 _ hm; exact absurd hm (by simp)
      | cons head rest ih =>
        obtain ⟨q, tj⟩ := head
        intro st st1 hnp hm habs2 h
        simp only [runRegistrations] at h
        have hnp' : (rest.map Prod.fst).Nodup := (List.nodup_cons.mp hnp).2
        rcases List.mem_cons.mp hm with heq | hm'
        · have h1 : p = q := congrArg Prod.fst heq
          have h2 : i = tj := congrArg Prod.snd heq
          subst h1
          subst h2
          have hfalse : (getElementById st.dom i).isSome = false := by
            rw [habs2]; rfl
          rw [if_neg (by simp [hfalse])] at h
          have hpq : ∀ pair ∈ rest, pair.1 ≠ p := fun pair hmm hc =>
            (List.nodup_cons.mp hnp).1 (List.mem_map.mpr ⟨pair, hmm, hc⟩)
          exact runRegs_count_of_no_path f pn p rest _ _ hpq h
        · have hq : q ≠ p := fun hc =>
            (List.nodup_cons.mp hnp).1 (List.mem_map.mpr ⟨(p, i), hm', hc.symm⟩)
          by_cases hpres2 : (getElementById st.dom tj).isSome = true
          · rw [if_pos hpres2] at h
            cases hlc : loadComponent f pn q tj st.dom with
            | none => rw [hlc] at h; exact absurd h (by simp)
            | some r =>
              rw [hlc] at h
              have h' : runRegistrations f pn rest
                  ⟨r.dom, st.fetched ++ r.fetched, st.errors + r.errors,
                    st.loaderHidden⟩ = some st1 := h
              have habs3 : getElementById r.dom i = none := by
                have hs := loadComponent_isSome_id f pn q tj st.dom r hlc i
                rw [habs2] at hs
                exact Option.not_isSome_iff_eq_none.mp (by simp [hs])
              rw [ih _ _ hnp' hm' habs3 h']
              simp only [loadComponent_fetched f pn q tj st.dom r hlc]
              exact count_snoc_ne st.fetched (getBasePath pn ++ q) (getBasePath pn ++ p)
                (fun hc => hq (string_append_left_cancel hc))
          · rw [if_neg hpres2] at h
            exact ih _ _ hnp' hm' habs2 h
    have := key registrations ⟨dom, [], 0, false⟩ st0 (by decide) hmem habs hr
    simpa using this

/-- Concrete instantiation of `c6_absent_no_fetch`: on a page with an
empty DOM, a completed load sequence fetches nothing for the header. -/
theorem c6_witness :
    (RunState.fetched ⟨[], [], 0, false⟩).count
      (getBasePath "/HomePage.html" ++ "components/header.html") = 0 :=
  c6_absent_no_fetch (fun _ => FetchResult.fail) "/HomePage.html" []
    "components/header.html" "header-placeholder" ⟨[], [], 0, false⟩
    (by decide) (by decide) (by decide)

theorem runRegs_hang_of_present (f : String → FetchResult) (pn p i : String)
    (regs : List (String × String)) :
    ∀ st : RunState, (p, i) ∈ regs → (getElementById st.dom i).isSome = true →
      f (getBasePath pn ++ p) = FetchResult.hang →
      runRegistrations f pn regs st = none := by
  induction regs with
  | nil => intro st hmem; exact absurd hmem (by simp)
  | cons head rest ih =>
    obtain ⟨q, tj⟩ := head
    intro st hmem hpres hhang
    simp only [runRegistrations]
    rcases List.mem_cons.mp hmem with heq | hmem'
    · have h1 : p = q := congrArg Prod.fst heq
      have h2 : i = tj := congrArg Prod.snd heq
      subst h1
      subst h2
      rw [if_pos hpres, loadComponent_eq_hang f pn p i st.dom hhang]
    · by_cases hpres2 : (getElementById st.dom tj).isSome = true
      · rw [if_pos hpres2]
        cases hlc : loadComponent f pn q tj st.dom with
        | none => rfl
        | some r =>
          have hpres' : (getElementById r.dom i).isSome = true := by
            rw [loadComponent_isSome_id f pn q tj st.dom r hlc i]
            exact hpres
          exact ih _ hmem' hpres' hhang
      · rw [if_neg hpres2]
        exact ih _ hmem' hpres hhang

/-- C8 counterexample: the claim "if an awaited fragment fetch hangs,
the loading indicator is nevertheless hidden once the fixed timer
elapses" is false on the code.  On a page whose DOM contains the header
placeholder and the `page-loader` element, with every fetch hanging, the
`DOMContentLoaded` handler suspends forever at the header's `await` —
before the `setTimeout` statement runs — so no completed state with the
loader hidden ever exists. -/
theorem c8_counterexample :
    ¬ ∃ st, domContentLoaded (fun _ => FetchResult.hang) "/HomePage.html"
        [⟨"header-placeholder", []⟩, ⟨"page-loader", [Node.text "spinner"]⟩] =
          some st ∧ st.loaderHidden = true := by
  intro hcl
  obtain ⟨st, hst, _⟩ := hcl
  have hn : domContentLoaded (fun _ => FetchResult.hang) "/HomePage.html"
      [⟨"header-placeholder", []⟩, ⟨"page-loader", [Node.text "spinner"]⟩] = none := by
    decide
  rw [hn] at hst
  exact Option.noConfusion hst

/-- C8 (amended): the `setTimeout` that hides the loading indicator is
registered only after the sequential `await` chain over the
registrations has completed.  Hence if the fetch of any registered
fragment whose placeholder is present hangs, the handler never reaches
the timer registration and the load sequence yields no completed state
at all — the loading indicator is never hidden, rather than being
hidden when the timer elapses. -/
theorem c8_hang_never_hidden (f : String → FetchResult) (pn : String) (dom : Dom)
    (p i : String)
    (hmem : (p, i) ∈ registrations)
    (hpres : (getElementById dom i).isSome = true)
    (hhang : f (getBasePath pn ++ p) = FetchResult.hang) :
    domContentLoaded f pn dom = none := by
  unfold domContentLoaded
  rw [runRegs_hang_of_present f pn p i registrations ⟨dom, [], 0, false⟩ hmem hpres hhang]

/-- Concrete instantiation of `c8_hang_never_hidden` at the inputs of
the counterexample. -/
theorem c8_witness :
    domContentLoaded (fun _ => FetchResult.hang) "/HomePage.html"
      [⟨"header-placeholder", []⟩, ⟨"page-loader", [Node.text "spinner"]⟩] = none :=
  c8_hang_never_hidden (fun _ => FetchResult.hang) "/HomePage.html"
    [⟨"header-placeholder", []⟩, ⟨"page-loader", [Node.text "spinner"]⟩]
    "components/header.html" "header-placeholder" (by decide) (by decide) (by decide)
